import Mathlib

/-!
Verification of the `monochromeoled` SSD1306 display driver.

The Go source (`monochromeoled.go`) is shallowly embedded below.  Machine
bytes are modelled as `Nat` kept below 256, Go `int` as `Int`; Go's
truncated integer division `/` is `Int.tdiv` and the two's-complement
bitwise `y & 7` is `Int.emod y 8` (both agree with Go on every input,
including negatives).  A method on the `*OLED` receiver is embedded as a
function that returns the outcome together with the receiver's final
state; the I2C device is modelled as the trace of byte sequences it has
accepted, together with a schedule saying which writes succeed.
-/

namespace Monochromeoled

/-- Outcome of a Go call: a normal return value, a returned `error`,
or a runtime panic. -/
inductive GoResult (α : Type) where
  | ok : α → GoResult α
  | error : String → GoResult α
  | panic : String → GoResult α
deriving Repr, DecidableEq

def GoResult.isOk {α : Type} : GoResult α → Bool
  | .ok _ => true
  | _ => false

def GoResult.isError {α : Type} : GoResult α → Bool
  | .error _ => true
  | _ => false

def GoResult.isPanic {α : Type} : GoResult α → Bool
  | .panic _ => true
  | _ => false

/-- Error and panic message placeholders (the Go source formats dynamic
messages with `fmt.Errorf`; their exact text is irrelevant here). -/
def outOfBoundsMsg : String := "coordinate out of bounds"

def badValueMsg : String := "value needs to be either 0 or 1"

def indexRangeMsg : String := "runtime error: index out of range"

def makesliceMsg : String := "runtime error: makeslice: len out of range"

def writeFailedMsg : String := "i2c write failed"

def openFailedMsg : String := "i2c open failed"

def notImplementedMsg : String := "not implemented"

-- Constants from the source.
def ssd1306_LCDWIDTH : Int := 128

def ssd1306_LCDHEIGHT : Int := 64

def addr : Nat := 0x3C

def ssd1306_DISPLAY_ON : Nat := 0xAF

def ssd1306_DISPLAY_OFF : Nat := 0xAE

/-- `OLED` struct: width, height and the pixel buffer (`buf[0]` is the
data-frame marker byte, one bit per pixel afterwards). -/
structure OLED where
  w : Int
  h : Int
  buf : List Nat
deriving Repr, DecidableEq

/-- `initSeq` from the source: the initialization command sequence. -/
def initSeq : List Nat :=
  [0xae,
   0x00 ||| 0x00,
   0x10 ||| 0x00,
   0xd5, 0x40,
   0xa8, (ssd1306_LCDHEIGHT - 1).toNat,
   0xd3, 0x00,
   0x40 ||| 0,
   0x8d, 0x14,
   0x20, 0x0,
   0xA0 ||| 0x1,
   0xC8,
   0xda, 0x12,
   0x81, 0xcf,
   0x9d, 0xf1,
   0xdb, 0x40,
   0xa4, 0xa6,
   0x2e,
   0xaf]

/-- The I2C device as seen from the driver: the list of byte sequences
successfully written to it, in order. -/
structure DevState where
  trace : List (List Nat)
deriving Repr, DecidableEq

/-- The transport: whether opening succeeds, and which writes (numbered
from 0) succeed. -/
structure Transport where
  openOk : Bool
  writeOk : Nat → Bool

/-- `dev.Write(bytes)`: the n-th write attempt succeeds iff the schedule
allows it; a successful write is appended to the trace. -/
def devWrite (wok : Nat → Bool) (st : DevState) (bytes : List Nat) :
    GoResult Unit × DevState :=
  if wok st.trace.length then
    (GoResult.ok (), { trace := st.trace ++ [bytes] })
  else
    (GoResult.error writeFailedMsg, st)

/-- `Open`: open the bus, write `initSeq`, allocate the buffer with the
marker byte at index 0. -/
def Open (t : Transport) : GoResult OLED × DevState :=
  let w := ssd1306_LCDWIDTH
  let h := ssd1306_LCDHEIGHT
  let st0 : DevState := { trace := [] }
  if t.openOk then
    match devWrite t.writeOk st0 initSeq with
    | (GoResult.ok _, st1) =>
      let buf := (List.replicate (w * Int.tdiv h 8 + 1).toNat 0).set 0 0x40
      (GoResult.ok { w := w, h := h, buf := buf }, st1)
    | (GoResult.error e, st1) => (GoResult.error e, st1)
    | (GoResult.panic e, st1) => (GoResult.panic e, st1)
  else
    (GoResult.error openFailedMsg, st0)

/-- `OpenWithI2c`: width fixed at 128, caller-supplied height, no
validation; `make` panics on a negative length. -/
def OpenWithI2c (height : Int) : GoResult OLED :=
  let w := ssd1306_LCDWIDTH
  let h := height
  let size := w * Int.tdiv h 8 + 1
  if 0 ≤ size then
    GoResult.ok { w := w, h := h, buf := (List.replicate size.toNat 0).set 0 0x40 }
  else
    GoResult.panic makesliceMsg

/-- `On`: write the single display-on command byte. -/
def On (o : OLED) (wok : Nat → Bool) (st : DevState) :
    GoResult Unit × OLED × DevState :=
  let r := devWrite wok st [ssd1306_DISPLAY_ON]
  (r.1, o, r.2)

/-- `Off`: write the single display-off command byte. -/
def Off (o : OLED) (wok : Nat → Bool) (st : DevState) :
    GoResult Unit × OLED × DevState :=
  let r := devWrite wok st [ssd1306_DISPLAY_OFF]
  (r.1, o, r.2)

/-- `SetPixel`: strict bounds check (`x >= w || y >= h`), value check
(`v > 1`), then set/clear bit `y & 7` of `buf[1 + x + (y/8)*w]`.
Indexing outside the slice panics, as in Go. -/
def SetPixel (o : OLED) (x y : Int) (v : Nat) : GoResult Unit × OLED :=
  if o.w ≤ x ∨ o.h ≤ y then
    (GoResult.error outOfBoundsMsg, o)
  else if 1 < v then
    (GoResult.error badValueMsg, o)
  else
    let i : Int := 1 + x + Int.tdiv y 8 * o.w
    if hi : 0 ≤ i ∧ i.toNat < o.buf.length then
      let s : Nat := (Int.emod y 8).toNat
      let b : Nat := o.buf.get ⟨i.toNat, hi.2⟩
      let b2 : Nat := if v = 0 then b &&& (255 ^^^ (1 <<< s)) else b ||| (1 <<< s)
      (GoResult.ok (), { o with buf := o.buf.set i.toNat b2 })
    else
      (GoResult.panic indexRangeMsg, o)

/-- A source image: bounds `dx × dy`, and the `RGBA()` red/green/blue
channels of each pixel. -/
structure Image where
  dx : Nat
  dy : Nat
  rgb : Nat → Nat → Nat × Nat × Nat

/-- The on/off value `SetImage` derives from a source pixel:
`1` iff `r+g+b > 0`. -/
def pixVal (img : Image) (ix iy : Nat) : Nat :=
  let c := img.rgb ix iy
  if 0 < c.1 + c.2.1 + c.2.2 then 1 else 0

/-- Inner loop of `SetImage` (`for j := y; j < endY; j++`), with the
iteration count precomputed as fuel. -/
def setImageCol (img : Image) (imgI : Nat) (i : Int) :
    Nat → Int → Nat → OLED → GoResult Unit × OLED
  | 0, _, _, o => (GoResult.ok (), o)
  | Nat.succ n, j, imgY, o =>
    match SetPixel o i j (pixVal img imgI imgY) with
    | (GoResult.ok _, o2) => setImageCol img imgI i n (j + 1) (imgY + 1) o2
    | (r, o2) => (r, o2)

/-- Outer loop of `SetImage` (`for i := x; i < endX; i++`). -/
def setImageRow (img : Image) (y endY : Int) :
    Nat → Int → Nat → OLED → GoResult Unit × OLED
  | 0, _, _, o => (GoResult.ok (), o)
  | Nat.succ n, i, imgI, o =>
    match setImageCol img imgI i (endY - y).toNat y 0 o with
    | (GoResult.ok _, o2) => setImageRow img y endY n (i + 1) (imgI + 1) o2
    | (r, o2) => (r, o2)

/-- `SetImage`: clip the destination rectangle at the right/bottom edges
and copy the thresholded source pixels via `SetPixel`. -/
def SetImage (o : OLED) (x y : Int) (img : Image) : GoResult Unit × OLED :=
  let imgW : Int := img.dx
  let imgH : Int := img.dy
  let endX0 := x + imgW
  let endY0 := y + imgH
  let endX := if o.w ≤ endX0 then o.w else endX0
  let endY := if o.h ≤ endY0 then o.h else endY0
  setImageRow img y endY (endX - x).toNat x 0 o

/-- The fixed addressing-window framing commands sent by `Draw`
(inline in the source). -/
def drawFraming : List Nat :=
  [0xa4,
   0x40 ||| 0,
   0x21, 0, ssd1306_LCDWIDTH.toNat,
   0x22, 0, 7]

/-- `Draw`: write the framing commands, then the whole buffer. -/
def Draw (o : OLED) (wok : Nat → Bool) (st : DevState) :
    GoResult Unit × OLED × DevState :=
  match devWrite wok st drawFraming with
  | (GoResult.ok _, st1) =>
    match devWrite wok st1 o.buf with
    | (GoResult.ok _, st2) => (GoResult.ok (), o, st2)
    | (r, st2) => (r, o, st2)
  | (r, st1) => (r, o, st1)

/-- `Clear`: zero every buffer byte except index 0, then `Draw`. -/
def Clear (o : OLED) (wok : Nat → Bool) (st : DevState) :
    GoResult Unit × OLED × DevState :=
  let o1 : OLED :=
    { o with buf := match o.buf with
                    | [] => []
                    | b0 :: rest => b0 :: List.replicate rest.length 0 }
  Draw o1 wok st

/-- `EnableScroll`: unimplemented stub, panics unconditionally. -/
def EnableScroll (o : OLED) (startY endY : Int) : GoResult Unit × OLED :=
  (GoResult.panic notImplementedMsg, o)

/-- `DisableScroll`: unimplemented stub, panics unconditionally. -/
def DisableScroll (o : OLED) : GoResult Unit × OLED :=
  (GoResult.panic notImplementedMsg, o)

/-- `Width` accessor. -/
def Width (o : OLED) : Int := o.w

/-- `Height` accessor. -/
def Height (o : OLED) : Int := o.h

/-- Well-formedness of an `OLED` as produced by the constructors with a
valid geometry: positive width, positive height divisible by 8, buffer
length `1 + w*(h/8)`, all buffer entries bytes. -/
def OLED.wf (o : OLED) : Prop :=
  0 < o.w ∧ 0 < o.h ∧ Int.emod o.h 8 = 0 ∧
    (o.buf.length : Int) = 1 + o.w * Int.tdiv o.h 8 ∧
    ∀ b ∈ o.buf, b < 256

instance (o : OLED) : Decidable o.wf := by
  unfold OLED.wf
  infer_instance

/-- Reading pixel (a, b) back through the addressing formula:
bit `b mod 8` of the byte at index `1 + a + (b/8)*w`. -/
def bitAt (o : OLED) (a b : Int) : Bool :=
  Nat.testBit (o.buf.getD (1 + a + Int.tdiv b 8 * o.w).toNat 0) (Int.emod b 8).toNat

/-- The byte index owning pixel (x, y). -/
def pixIdx (o : OLED) (x y : Int) : Nat :=
  (1 + x + Int.tdiv y 8 * o.w).toNat

/-- The bit position owning pixel (x, y) inside its byte. -/
def pixBit (y : Int) : Nat :=
  (Int.emod y 8).toNat

/-- A fresh 128×64 display, as built by `Open`: 1025 bytes, marker at
index 0, all pixels off. -/
def oled0 : OLED :=
  { w := 128, h := 64, buf := (List.replicate 1025 0).set 0 0x40 }

/-- An all-ok transport (mock that accepts everything). -/
def allOk : Transport := { openOk := true, writeOk := fun _ => true }

/-- A 10×10 all-white source image. -/
def whiteImg : Image :=
  { dx := 10, dy := 10, rgb := fun _ _ => (0xffff, 0xffff, 0xffff) }

/-- Project the value out of a successful `GoResult`. -/
def GoResult.getOr {α : Type} (d : α) : GoResult α → α
  | .ok a => a
  | _ => d

/-- One buffer-facing driver call, for reasoning about arbitrary call
sequences. -/
inductive Op where
  | setPixelOp (x y : Int) (v : Nat)
  | setImageOp (x y : Int) (img : Image)
  | clearOp
  | drawOp
  | onOp
  | offOp

/-- An `Op` whose coordinate arguments are nonnegative (vacuous for the
coordinate-free operations). -/
def Op.nonneg : Op → Prop
  | .setPixelOp x y _ => 0 ≤ x ∧ 0 ≤ y
  | .setImageOp x y _ => 0 ≤ x ∧ 0 ≤ y
  | .clearOp => True
  | .drawOp => True
  | .onOp => True
  | .offOp => True

instance : DecidablePred Op.nonneg := fun op => by
  cases op <;> simp only [Op.nonneg] <;> infer_instance

/-- Run one call against the receiver and the device; the receiver state
after the call is the one the method returns (unchanged on error or
panic, since every mutation precedes only a successful return). -/
def execOp (wok : Nat → Bool) (s : OLED × DevState) : Op → OLED × DevState
  | .setPixelOp x y v => ((SetPixel s.1 x y v).2, s.2)
  | .setImageOp x y img => ((SetImage s.1 x y img).2, s.2)
  | .clearOp => ((Clear s.1 wok s.2).2.1, (Clear s.1 wok s.2).2.2)
  | .drawOp => ((Draw s.1 wok s.2).2.1, (Draw s.1 wok s.2).2.2)
  | .onOp => ((On s.1 wok s.2).2.1, (On s.1 wok s.2).2.2)
  | .offOp => ((Off s.1 wok s.2).2.1, (Off s.1 wok s.2).2.2)

/-- Run a sequence of calls. -/
def execOps (wok : Nat → Bool) : OLED × DevState → List Op → OLED × DevState
  | s, [] => s
  | s, op :: ops => execOps wok (execOp wok s op) ops

/-! ### Shared lemmas -/

/-- A scheduled-to-succeed write appends its bytes to the trace. -/
lemma devWrite_ok (wok : Nat → Bool) (st : DevState) (bytes : List Nat)
    (h : wok st.trace.length = true) :
    devWrite wok st bytes = (GoResult.ok (), { trace := st.trace ++ [bytes] }) := by
  unfold devWrite
  rw [h]
  simp

/-- A scheduled-to-fail write returns the transport error and leaves the
trace alone. -/
lemma devWrite_fail (wok : Nat → Bool) (st : DevState) (bytes : List Nat)
    (h : wok st.trace.length = false) :
    devWrite wok st bytes = (GoResult.error writeFailedMsg, st) := by
  unfold devWrite
  rw [h]
  simp

/-- `Draw` returns its receiver unchanged on every schedule. -/
lemma draw_receiver_eq (o : OLED) (wok : Nat → Bool) (st : DevState) :
    (Draw o wok st).2.1 = o := by
  unfold Draw
  cases h1 : wok st.trace.length
  · rw [devWrite_fail _ _ _ h1]
  · rw [devWrite_ok _ _ _ h1]
    dsimp only
    cases h2 : wok (st.trace ++ [drawFraming]).length
    · rw [devWrite_fail _ _ _ h2]
    · rw [devWrite_ok _ _ _ h2]

/-! ### C10: scroll stubs panic -/

/-- C10: `EnableScroll` and `DisableScroll` never return normally: for
every receiver and arguments they panic rather than produce a return
value or an error value. -/
theorem scroll_never_returns (o : OLED) (startY endY : Int) :
    EnableScroll o startY endY = (GoResult.panic notImplementedMsg, o) ∧
    DisableScroll o = (GoResult.panic notImplementedMsg, o) ∧
    (EnableScroll o startY endY).1.isOk = false ∧
    (EnableScroll o startY endY).1.isError = false ∧
    (DisableScroll o).1.isOk = false ∧
    (DisableScroll o).1.isError = false :=
  ⟨rfl, rfl, rfl, rfl, rfl, rfl⟩

/-! ### C9: Draw never mutates the buffer -/

/-- C9: a flush never mutates the pixel buffer: whatever the write
schedule (both writes succeeding, either failing), the receiver `Draw`
returns is the one it was given, so the buffer is byte-for-byte
unchanged. -/
theorem draw_buffer_unchanged (o : OLED) (wok : Nat → Bool) (st : DevState) :
    ((Draw o wok st).2.1).buf = o.buf ∧ (Draw o wok st).2.1 = o := by
  have h := draw_receiver_eq o wok st
  exact ⟨by rw [h], h⟩

/-! ### C6: no geometry validation at construction -/

/-- C6 counterexample: height 4 is not a positive multiple of 8, yet
`OpenWithI2c` succeeds with a 1-byte buffer instead of failing. -/
theorem openWithI2c_height4_ok :
    OpenWithI2c 4 = GoResult.ok { w := 128, h := 4, buf := [0x40] } ∧
    (OpenWithI2c 4).isError = false ∧ ¬ Int.emod 4 8 = 0 := by
  exact ⟨rfl, rfl, by decide⟩

/-- C6 amended: construction never fails with a configuration error:
`OpenWithI2c` accepts any height without validation, and for every
nonnegative height returns a controller whose buffer has length
`1 + 128*(height/8)` with the marker byte set. -/
theorem openWithI2c_no_validation (height : Int) :
    (OpenWithI2c height).isError = false ∧
    (0 ≤ height →
      OpenWithI2c height =
        GoResult.ok ⟨128, height, (List.replicate (128 * Int.tdiv height 8 + 1).toNat 0).set 0 0x40⟩) := by
  constructor
  · unfold OpenWithI2c
    dsimp only
    split <;> rfl
  · intro hh
    have h1 : 0 ≤ Int.tdiv height 8 := Int.tdiv_nonneg hh (by decide)
    have h2 : (0:Int) ≤ ssd1306_LCDWIDTH * Int.tdiv height 8 + 1 := by
      unfold ssd1306_LCDWIDTH; linarith
    unfold OpenWithI2c
    dsimp only
    rw [if_pos h2]
    rfl

/-- C6 witness. -/
theorem openWithI2c_no_validation_witness :
    (0:Int) ≤ 12 ∧
    OpenWithI2c 12 =
      GoResult.ok ⟨128, 12, (List.replicate (128 * Int.tdiv 12 8 + 1).toNat 0).set 0 0x40⟩ :=
  ⟨by decide, (openWithI2c_no_validation 12).2 (by decide)⟩

/-! ### C3: Open writes the init sequence -/

/-- C3 counterexample: the initialization sequence is 28 bytes long, not
26 as claimed. -/
theorem initSeq_length_not_26 : initSeq.length = 28 ∧ ¬ initSeq.length = 26 := by
  decide

/-- C3 amended: `Open` writes the 28-byte initialization sequence as its
first and only write immediately after opening the connection; if the
open or that write fails, it returns the transport error and no
controller. -/
theorem open_single_write_initSeq (t : Transport) :
    Open t =
      (if t.openOk then
        (if t.writeOk 0 then (GoResult.ok oled0, { trace := [initSeq] })
         else (GoResult.error writeFailedMsg, { trace := [] }))
       else (GoResult.error openFailedMsg, { trace := [] })) ∧
    initSeq.length = 28 := by
  constructor
  · unfold Open
    cases h1 : t.openOk
    · simp [h1]
    · cases h2 : t.writeOk 0
      · rw [if_pos rfl, devWrite_fail _ _ _ h2]
        simp [h2]
      · rw [if_pos rfl, devWrite_ok _ _ _ h2]
        simp only [h2, if_true]
        rfl
  · decide

/-! ### C4: Draw's two writes and the addressing window -/

/-- C4 counterexample: on the 128-wide display the framing commands end
the column-address range at byte 128, which is the width, not
width − 1 = 127; the trace of a successful flush shows the framing then
the buffer. -/
theorem draw_end_column_not_127 :
    (Draw oled0 (fun _ => true) { trace := [] }).2.2.trace = [drawFraming, oled0.buf] ∧
    drawFraming.getD 4 0 = 128 ∧ ¬ drawFraming.getD 4 0 = 127 := by
  exact ⟨rfl, rfl, by decide⟩

/-- C4 amended: every flush performs exactly two writes in order — first
the fixed framing commands, whose column-address range is [0, width]
(end byte 128, not width−1) and whose page-address range is [0, 7], then
the entire pixel buffer including its leading marker byte as a single
write. -/
theorem draw_two_writes (o : OLED) (wok : Nat → Bool) (st : DevState)
    (h1 : wok st.trace.length = true) (h2 : wok (st.trace.length + 1) = true) :
    Draw o wok st = (GoResult.ok (), o, { trace := st.trace ++ [drawFraming, o.buf] }) ∧
    drawFraming = [0xa4, 0x40, 0x21, 0, 128, 0x22, 0, 7] := by
  constructor
  · unfold Draw
    rw [devWrite_ok _ _ _ h1]
    dsimp only
    rw [devWrite_ok _ _ _ (by simpa using h2)]
    dsimp only
    rw [List.append_assoc]
    rfl
  · rfl

/-- C4 witness. -/
theorem draw_two_writes_witness :
    Draw oled0 (fun _ => true) { trace := [] } =
      (GoResult.ok (), oled0, { trace := [drawFraming, oled0.buf] }) :=
  (draw_two_writes oled0 (fun _ => true) { trace := [] } rfl rfl).1

/-! ### C2: SetPixel error conditions -/

set_option maxRecDepth 8192 in
/-- C2 counterexample: `SetPixel(-1, 0, 1)` on a fresh 128×64 display is
not rejected: it succeeds and mutates the buffer (it sets bit 0 of the
marker byte at index 0, turning 0x40 into 0x41). -/
theorem setPixel_negative_not_rejected :
    (SetPixel oled0 (-1) 0 1).1 = GoResult.ok () ∧
    ((SetPixel oled0 (-1) 0 1).2).buf.getD 0 0 = 0x41 ∧
    oled0.buf.getD 0 0 = 0x40 :=
  ⟨rfl, rfl, rfl⟩

/-- C2 amended: `SetPixel(x, y, v)` returns an error exactly when
`x ≥ width`, `y ≥ height`, or `v > 1`; negative coordinates are not
rejected. Whenever the call does not return normally (error or panic),
the receiver is unchanged. -/
theorem setPixel_error_iff (o : OLED) (x y : Int) (v : Nat) :
    ((SetPixel o x y v).1.isError = true ↔ (o.w ≤ x ∨ o.h ≤ y ∨ 1 < v)) ∧
    ((SetPixel o x y v).1.isOk = false → (SetPixel o x y v).2 = o) := by
  unfold SetPixel
  by_cases h1 : o.w ≤ x ∨ o.h ≤ y
  · rw [if_pos h1]
    exact ⟨⟨fun _ => by tauto, fun _ => rfl⟩, fun _ => rfl⟩
  · rw [if_neg h1]
    by_cases h2 : 1 < v
    · rw [if_pos h2]
      exact ⟨⟨fun _ => by tauto, fun _ => rfl⟩, fun _ => rfl⟩
    · rw [if_neg h2]
      dsimp only
      split
      · refine ⟨⟨fun hc => ?_, fun hor => ?_⟩, fun hok => ?_⟩
        · simp [GoResult.isError] at hc
        · tauto
        · simp [GoResult.isOk] at hok
      · refine ⟨⟨fun hc => ?_, fun hor => ?_⟩, fun _ => rfl⟩
        · simp [GoResult.isError] at hc
        · tauto

/-- C2 witness. -/
theorem setPixel_error_iff_witness :
    (SetPixel oled0 200 0 1).1.isError = true ∧ (SetPixel oled0 (-1) 0 5).2 = oled0 :=
  ⟨(setPixel_error_iff oled0 200 0 1).1.mpr (by decide),
   (setPixel_error_iff oled0 (-1) 0 5).2 (by decide)⟩

/-! ### Addressing arithmetic -/

lemma emod8_nonneg (y : Int) : 0 ≤ Int.emod y 8 := Int.emod_nonneg y (by decide)

lemma emod8_toNat_lt (y : Int) : (Int.emod y 8).toNat < 8 := by
  have h1 := emod8_nonneg y
  have h2 : Int.emod y 8 < 8 := Int.emod_lt_of_pos y (by decide)
  omega

/-- For an in-bounds pixel of a well-formed display, the owning byte
index is at least 1 and within the buffer. -/
lemma pixIdx_bounds (o : OLED) (x y : Int) (hwf : o.wf)
    (hx0 : 0 ≤ x) (hxw : x < o.w) (hy0 : 0 ≤ y) (hyh : y < o.h) :
    0 ≤ 1 + x + Int.tdiv y 8 * o.w ∧
    1 ≤ pixIdx o x y ∧ pixIdx o x y < o.buf.length := by
  obtain ⟨hw, hh, hmod, hlen, -⟩ := hwf
  have hdy : Int.tdiv y 8 = y / 8 := Int.tdiv_eq_ediv hy0 (by decide)
  have hdh : Int.tdiv o.h 8 = o.h / 8 := Int.tdiv_eq_ediv (le_of_lt hh) (by decide)
  have hq0 : 0 ≤ y / 8 := Int.ediv_nonneg hy0 (by decide)
  have hqk : y / 8 ≤ o.h / 8 - 1 := by
    have hx8 : Int.emod o.h 8 = o.h % 8 := rfl
    rw [hx8] at hmod
    omega
  have hprod0 : 0 ≤ y / 8 * o.w := mul_nonneg hq0 (le_of_lt hw)
  have hi1 : 1 ≤ 1 + x + Int.tdiv y 8 * o.w := by
    rw [hdy]
    linarith
  have hprodUB : y / 8 * o.w ≤ (o.h / 8 - 1) * o.w :=
    mul_le_mul_of_nonneg_right hqk (le_of_lt hw)
  have hring : (o.h / 8 - 1) * o.w = o.w * (o.h / 8) - o.w := by ring
  have hiUB : 1 + x + Int.tdiv y 8 * o.w < (o.buf.length : Int) := by
    rw [hdy, hlen, hdh]
    linarith
  have hfin : ∀ I : Int, 1 ≤ I → I < (o.buf.length : Int) →
      1 ≤ I.toNat ∧ I.toNat < o.buf.length := by
    intro I ha hb
    omega
  obtain ⟨hA, hB⟩ := hfin _ hi1 hiUB
  exact ⟨by linarith, hA, hB⟩

/-! ### Byte-level bit lemmas -/

lemma testBit_byte_high (b k : Nat) (hb : b < 256) (hk : 8 ≤ k) :
    Nat.testBit b k = false := by
  have h2 : (2:Nat) ^ 8 ≤ 2 ^ k := Nat.pow_le_pow_right (by decide) hk
  exact Nat.testBit_lt_two_pow (lt_of_lt_of_le hb h2)

/-- Clearing bit `s` of a byte: bit `s` reads 0, others are unchanged. -/
lemma testBit_clear (b s k : Nat) (hb : b < 256) (hs : s < 8) :
    Nat.testBit (b &&& (255 ^^^ (1 <<< s))) k =
      if k = s then false else Nat.testBit b k := by
  rw [Nat.testBit_and, Nat.one_shiftLeft, Nat.testBit_xor]
  rw [show (255 : Nat) = 2 ^ 8 - 1 from rfl, Nat.testBit_two_pow_sub_one,
    Nat.testBit_two_pow]
  by_cases hks : k = s
  · subst hks
    simp [hs]
  · have hsk : ¬ s = k := fun h => hks h.symm
    by_cases hk8 : k < 8
    · simp [hks, hsk, hk8]
    · simp [hks, hsk, hk8, testBit_byte_high b k hb (by omega)]

/-- Setting bit `s` of a byte: bit `s` reads 1, others are unchanged. -/
lemma testBit_set (b s k : Nat) :
    Nat.testBit (b ||| (1 <<< s)) k =
      if k = s then true else Nat.testBit b k := by
  rw [Nat.testBit_or, Nat.one_shiftLeft, Nat.testBit_two_pow]
  by_cases hks : k = s
  · simp [hks]
  · have hsk : ¬ s = k := fun h => hks h.symm
    simp [hks, hsk]

/-! ### SetPixel on an in-bounds pixel -/

/-- Full effect of a successful in-bounds `SetPixel`: the call succeeds,
geometry and buffer length are unchanged, well-formedness is preserved,
bit `y mod 8` of byte `1 + x + (y/8)*w` becomes `v`, and every other bit
of every buffer byte is unchanged. -/
lemma setPixel_ok_spec (o : OLED) (x y : Int) (v : Nat) (hwf : o.wf)
    (hx0 : 0 ≤ x) (hxw : x < o.w) (hy0 : 0 ≤ y) (hyh : y < o.h) (hv : v ≤ 1) :
    (SetPixel o x y v).1 = GoResult.ok () ∧
    ((SetPixel o x y v).2).w = o.w ∧
    ((SetPixel o x y v).2).h = o.h ∧
    ((SetPixel o x y v).2).buf.length = o.buf.length ∧
    ((SetPixel o x y v).2).wf ∧
    (∀ j k : Nat, ¬(j = pixIdx o x y ∧ k = pixBit y) →
      Nat.testBit (((SetPixel o x y v).2).buf.getD j 0) k =
        Nat.testBit (o.buf.getD j 0) k) ∧
    Nat.testBit (((SetPixel o x y v).2).buf.getD (pixIdx o x y) 0) (pixBit y) =
      decide (v = 1) := by
  obtain ⟨h0, h1c, hiUB⟩ := pixIdx_bounds o x y hwf hx0 hxw hy0 hyh
  unfold pixIdx at h1c hiUB
  have hc1 : ¬(o.w ≤ x ∨ o.h ≤ y) := by omega
  have hc2 : ¬(1 < v) := by omega
  have hcond : 0 ≤ 1 + x + Int.tdiv y 8 * o.w ∧
      (1 + x + Int.tdiv y 8 * o.w).toNat < o.buf.length := ⟨h0, hiUB⟩
  have hsetPix : SetPixel o x y v =
      (GoResult.ok (), { o with
        buf := o.buf.set (1 + x + Int.tdiv y 8 * o.w).toNat
          (if v = 0 then
            o.buf.get ⟨(1 + x + Int.tdiv y 8 * o.w).toNat, hcond.2⟩ &&&
              (255 ^^^ (1 <<< (Int.emod y 8).toNat))
           else
            o.buf.get ⟨(1 + x + Int.tdiv y 8 * o.w).toNat, hcond.2⟩ |||
              (1 <<< (Int.emod y 8).toNat)) }) := by
    unfold SetPixel
    rw [if_neg hc1, if_neg hc2]
    dsimp only
    rw [dif_pos hcond]
  set I : Nat := (1 + x + Int.tdiv y 8 * o.w).toNat with hI
  set S : Nat := (Int.emod y 8).toNat with hS
  set B : Nat := o.buf.get ⟨I, hcond.2⟩ with hB
  set b2 : Nat := if v = 0 then B &&& (255 ^^^ (1 <<< S)) else B ||| (1 <<< S) with hb2
  have hb2eq : SetPixel o x y v = (GoResult.ok (), { o with buf := o.buf.set I b2 }) := hsetPix
  have hBlt : B < 256 := hwf.2.2.2.2 B (by
    rw [hB]
    exact List.getElem_mem hcond.2)
  have hSlt : S < 8 := emod8_toNat_lt y
  have hgetD : o.buf.getD I 0 = B := by
    rw [List.getD_eq_getElem?_getD, List.getElem?_eq_getElem hcond.2]
    rfl
  have hlen2 : (o.buf.set I b2).length = o.buf.length := List.length_set o.buf I b2
  have hb2lt : b2 < 256 := by
    rw [hb2]
    by_cases hv0 : v = 0
    · rw [if_pos hv0]
      exact lt_of_le_of_lt Nat.and_le_left hBlt
    · rw [if_neg hv0]
      have hB8 : B < 2 ^ 8 := hBlt
      have h18 : (1 <<< S) < 2 ^ 8 := by
        rw [Nat.one_shiftLeft]
        exact lt_of_le_of_lt (Nat.pow_le_pow_right (by decide) (by omega : S ≤ 7))
          (by decide)
      exact Nat.or_lt_two_pow hB8 h18
  have hgetDset : ∀ j : Nat, (o.buf.set I b2).getD j 0 =
      if I = j then b2 else o.buf.getD j 0 := by
    intro j
    rw [List.getD_eq_getElem?_getD, List.getElem?_set]
    by_cases hj : I = j
    · rw [if_pos hj, if_pos hj, if_pos (by omega)]
      rfl
    · rw [if_neg hj, if_neg hj, List.getD_eq_getElem?_getD]
  rw [hb2eq]
  refine ⟨rfl, rfl, rfl, hlen2, ?_, ?_, ?_⟩
  · obtain ⟨hw, hh, hmod, hlenI, hbytes⟩ := hwf
    refine ⟨hw, hh, hmod, by rw [hlen2]; exact hlenI, ?_⟩
    intro c hc
    rcases List.mem_or_eq_of_mem_set hc with h | h
    · exact hbytes c h
    · rw [h]
      exact hb2lt
  · intro j k hjk
    have hjk2 : ¬(j = I ∧ k = S) := hjk
    dsimp only
    rw [hgetDset j]
    by_cases hj : I = j
    · rw [if_pos hj]
      have hkS : ¬ k = S := by
        intro hk
        exact hjk2 ⟨hj.symm, hk⟩
      subst hj
      rw [hgetD, hb2]
      by_cases hv0 : v = 0
      · rw [if_pos hv0, testBit_clear B S k hBlt hSlt, if_neg hkS]
      · rw [if_neg hv0, testBit_set B S k, if_neg hkS]
    · rw [if_neg hj]
  · dsimp only
    show Nat.testBit ((o.buf.set I b2).getD I 0) S = decide (v = 1)
    rw [hgetDset I, if_pos rfl, hb2]
    by_cases hv0 : v = 0
    · rw [if_pos hv0, testBit_clear B S S hBlt hSlt, if_pos rfl]
      simp [hv0]
    · rw [if_neg hv0, testBit_set B S S, if_pos rfl]
      have hv1 : v = 1 := by omega
      simp [hv1]

/-! ### C1: in-bounds SetPixel sets exactly one bit -/

/-- C1: for every in-bounds `SetPixel(x, y, v)` with `0 ≤ x < width`,
`0 ≤ y < height` and `v ∈ {0, 1}`, the call succeeds, reading the pixel
back through the addressing formula yields `v`, and every bit of the
buffer other than bit `y mod 8` of the byte at index
`1 + x + (y/8)*width` is unchanged. -/
theorem setPixel_inbounds_spec (o : OLED) (x y : Int) (v : Nat) (hwf : o.wf)
    (hx0 : 0 ≤ x) (hxw : x < o.w) (hy0 : 0 ≤ y) (hyh : y < o.h) (hv : v ≤ 1) :
    (SetPixel o x y v).1 = GoResult.ok () ∧
    bitAt ((SetPixel o x y v).2) x y = decide (v = 1) ∧
    (∀ j k : Nat, ¬(j = pixIdx o x y ∧ k = pixBit y) →
      Nat.testBit (((SetPixel o x y v).2).buf.getD j 0) k =
        Nat.testBit (o.buf.getD j 0) k) := by
  obtain ⟨hok, hwq, hhq, hlen, hwf2, hother, hbit⟩ :=
    setPixel_ok_spec o x y v hwf hx0 hxw hy0 hyh hv
  refine ⟨hok, ?_, hother⟩
  unfold bitAt
  rw [hwq]
  exact hbit

/-- The fresh 128×64 display is well-formed. -/
lemma oled0_wf : oled0.wf := by
  unfold oled0 OLED.wf
  refine ⟨by decide, by decide, by decide, ?_, ?_⟩
  · rw [List.length_set, List.length_replicate]
    decide
  · intro b hb
    rcases List.mem_or_eq_of_mem_set hb with h | h
    · have := List.eq_of_mem_replicate h
      omega
    · omega

/-- C1 witness. -/
theorem setPixel_inbounds_spec_witness :
    oled0.wf ∧ (0:Int) ≤ 3 ∧ (3:Int) < oled0.w ∧ (0:Int) ≤ 5 ∧ (5:Int) < oled0.h ∧
    (1:Nat) ≤ 1 ∧
    (SetPixel oled0 3 5 1).1 = GoResult.ok () ∧
    bitAt ((SetPixel oled0 3 5 1).2) 3 5 = decide ((1:Nat) = 1) :=
  ⟨oled0_wf, by decide, by decide, by decide, by decide, by decide,
   (setPixel_inbounds_spec oled0 3 5 1 oled0_wf (by decide) (by decide)
     (by decide) (by decide) (by decide)).1,
   (setPixel_inbounds_spec oled0 3 5 1 oled0_wf (by decide) (by decide)
     (by decide) (by decide) (by decide)).2.1⟩

/-! ### Injectivity of the addressing formula -/

/-- Distinct in-bounds pixels of a well-formed display own distinct
(byte index, bit position) pairs. -/
lemma pix_addr_inj (o : OLED) (hwf : o.wf) (a b c d : Int)
    (ha0 : 0 ≤ a) (haw : a < o.w) (hb0 : 0 ≤ b) (hbh : b < o.h)
    (hc0 : 0 ≤ c) (hcw : c < o.w) (hd0 : 0 ≤ d) (hdh : d < o.h)
    (hidx : pixIdx o a b = pixIdx o c d) (hbit : pixBit b = pixBit d) :
    a = c ∧ b = d := by
  obtain ⟨hw, hh, hmod, -, -⟩ := hwf
  have hdb : Int.tdiv b 8 = b / 8 := Int.tdiv_eq_ediv hb0 (by decide)
  have hdd : Int.tdiv d 8 = d / 8 := Int.tdiv_eq_ediv hd0 (by decide)
  have hqb0 : 0 ≤ b / 8 := Int.ediv_nonneg hb0 (by decide)
  have hqd0 : 0 ≤ d / 8 := Int.ediv_nonneg hd0 (by decide)
  have hIb : 0 ≤ 1 + a + Int.tdiv b 8 * o.w := by
    rw [hdb]
    have := mul_nonneg hqb0 (le_of_lt hw)
    linarith
  have hId : 0 ≤ 1 + c + Int.tdiv d 8 * o.w := by
    rw [hdd]
    have := mul_nonneg hqd0 (le_of_lt hw)
    linarith
  have hint : 1 + a + Int.tdiv b 8 * o.w = 1 + c + Int.tdiv d 8 * o.w := by
    unfold pixIdx at hidx
    have h1 := Int.toNat_of_nonneg hIb
    have h2 := Int.toNat_of_nonneg hId
    rw [← h1, ← h2, hidx]
  have hemod : Int.emod b 8 = Int.emod d 8 := by
    unfold pixBit at hbit
    have h1 := emod8_nonneg b
    have h2 := emod8_nonneg d
    omega
  have hkey : a - c = Int.tdiv d 8 * o.w - Int.tdiv b 8 * o.w := by linarith
  have hD : Int.tdiv b 8 = Int.tdiv d 8 := by
    by_contra hne
    rcases lt_or_gt_of_ne hne with hlt | hgt
    · have h1 : Int.tdiv b 8 + 1 ≤ Int.tdiv d 8 := Int.lt_iff_add_one_le.mp hlt
      have h2 : 1 * o.w ≤ (Int.tdiv d 8 - Int.tdiv b 8) * o.w :=
        mul_le_mul_of_nonneg_right (by linarith) (le_of_lt hw)
      have h3 : (Int.tdiv d 8 - Int.tdiv b 8) * o.w =
          Int.tdiv d 8 * o.w - Int.tdiv b 8 * o.w := by ring
      linarith
    · have h1 : Int.tdiv d 8 + 1 ≤ Int.tdiv b 8 := Int.lt_iff_add_one_le.mp hgt
      have h2 : 1 * o.w ≤ (Int.tdiv b 8 - Int.tdiv d 8) * o.w :=
        mul_le_mul_of_nonneg_right (by linarith) (le_of_lt hw)
      have h3 : (Int.tdiv b 8 - Int.tdiv d 8) * o.w =
          Int.tdiv b 8 * o.w - Int.tdiv d 8 * o.w := by ring
      linarith
  have hac : a = c := by
    rw [hD] at hkey
    linarith
  have hbd : b = d := by
    rw [hdb, hdd] at hD
    have hb8 : Int.emod b 8 = b % 8 := rfl
    have hd8 : Int.emod d 8 = d % 8 := rfl
    rw [hb8, hd8] at hemod
    omega
  exact ⟨hac, hbd⟩

/-- Pixel-level view of an in-bounds `SetPixel`: pixel (x, y) reads `v`
afterwards, every other in-bounds pixel is unchanged. -/
lemma setPixel_bitAt (o : OLED) (x y : Int) (v : Nat) (hwf : o.wf)
    (hx0 : 0 ≤ x) (hxw : x < o.w) (hy0 : 0 ≤ y) (hyh : y < o.h) (hv : v ≤ 1) :
    (SetPixel o x y v).1 = GoResult.ok () ∧
    ((SetPixel o x y v).2).w = o.w ∧ ((SetPixel o x y v).2).h = o.h ∧
    ((SetPixel o x y v).2).wf ∧
    ∀ a b : Int, 0 ≤ a → a < o.w → 0 ≤ b → b < o.h →
      bitAt ((SetPixel o x y v).2) a b =
        if a = x ∧ b = y then decide (v = 1) else bitAt o a b := by
  obtain ⟨hok, hwq, hhq, hlen, hwf2, hother, hbit⟩ :=
    setPixel_ok_spec o x y v hwf hx0 hxw hy0 hyh hv
  refine ⟨hok, hwq, hhq, hwf2, ?_⟩
  intro a b ha0 haw hb0 hbh
  unfold bitAt
  rw [hwq]
  by_cases hab : a = x ∧ b = y
  · obtain ⟨h1, h2⟩ := hab
    subst h1
    subst h2
    rw [if_pos ⟨rfl, rfl⟩]
    exact hbit
  · rw [if_neg hab]
    have hne : ¬(pixIdx o a b = pixIdx o x y ∧ pixBit b = pixBit y) := by
      rintro ⟨hidx, hbit2⟩
      exact hab (pix_addr_inj o hwf a b x y ha0 haw hb0 hbh hx0 hxw hy0 hyh hidx hbit2)
    exact hother (pixIdx o a b) (pixBit b) hne

/-! ### SetImage loop invariants -/

/-- Effect of the inner `SetImage` loop: it walks column `i` from row `j`
for `n` rows, copying thresholded source pixels; everything else is
untouched. -/
lemma setImageCol_spec (img : Image) (imgI : Nat) (i : Int) :
    ∀ (n : Nat) (j : Int) (imgY : Nat) (o : OLED),
      o.wf → 0 ≤ i → i < o.w →
      (n = 0 ∨ (0 ≤ j ∧ (n : Int) + j ≤ o.h)) →
      (setImageCol img imgI i n j imgY o).1 = GoResult.ok () ∧
      ((setImageCol img imgI i n j imgY o).2).w = o.w ∧
      ((setImageCol img imgI i n j imgY o).2).h = o.h ∧
      ((setImageCol img imgI i n j imgY o).2).wf ∧
      ∀ a b : Int, 0 ≤ a → a < o.w → 0 ≤ b → b < o.h →
        bitAt ((setImageCol img imgI i n j imgY o).2) a b =
          if a = i ∧ j ≤ b ∧ b < j + (n : Int) then
            decide (pixVal img imgI (imgY + (b - j).toNat) = 1)
          else bitAt o a b := by
  intro n
  induction n with
  | zero =>
    intro j imgY o hwf hi0 hiw hj
    refine ⟨rfl, rfl, rfl, hwf, ?_⟩
    intro a b ha0 haw hb0 hbh
    rw [if_neg (by rintro ⟨-, h1, h2⟩; simp at h2; omega)]
    rfl
  | succ n ih =>
    intro j imgY o hwf hi0 hiw hj
    have hj0 : 0 ≤ j := by
      rcases hj with h | h
      · omega
      · exact h.1
    have hcast : ((Nat.succ n : Nat) : Int) = (n : Int) + 1 := by push_cast; ring
    have hnh : (n : Int) + 1 + j ≤ o.h := by
      rcases hj with h | h
      · omega
      · rw [hcast] at h
        exact h.2
    have hjh : j < o.h := by
      have hn0 : (0:Int) ≤ (n : Int) := Int.natCast_nonneg n
      linarith
    have hv' : pixVal img imgI imgY ≤ 1 := by
      unfold pixVal
      dsimp only
      split <;> omega
    obtain ⟨hok, hwq, hhq, hwf2, hview⟩ :=
      setPixel_bitAt o i j (pixVal img imgI imgY) hwf hi0 hiw hj0 hjh hv'
    rcases hSP : SetPixel o i j (pixVal img imgI imgY) with ⟨r, o2⟩
    rw [hSP] at hok hwq hhq hwf2 hview
    dsimp only at hok hwq hhq hwf2 hview
    subst hok
    have hred : setImageCol img imgI i (Nat.succ n) j imgY o =
        setImageCol img imgI i n (j + 1) (imgY + 1) o2 := by
      show (match SetPixel o i j (pixVal img imgI imgY) with
            | (GoResult.ok _, o3) => setImageCol img imgI i n (j + 1) (imgY + 1) o3
            | (r, o3) => (r, o3)) =
          setImageCol img imgI i n (j + 1) (imgY + 1) o2
      rw [hSP]
    have hia : i < o2.w := by
      rw [hwq]
      exact hiw
    have hjih : n = 0 ∨ (0 ≤ j + 1 ∧ (n : Int) + (j + 1) ≤ o2.h) := by
      right
      refine ⟨by omega, ?_⟩
      rw [hhq]
      linarith
    obtain ⟨rok, rwq, rhq, rwf, rview⟩ := ih (j + 1) (imgY + 1) o2 hwf2 hi0 hia hjih
    rw [hred]
    refine ⟨rok, by rw [rwq, hwq], by rw [rhq, hhq], rwf, ?_⟩
    intro a b ha0 haw hb0 hbh
    have haw2 : a < o2.w := by
      rw [hwq]
      exact haw
    have hbh2 : b < o2.h := by
      rw [hhq]
      exact hbh
    rw [rview a b ha0 haw2 hb0 hbh2, hview a b ha0 haw hb0 hbh, hcast]
    by_cases hai : a = i
    · subst hai
      by_cases hb1 : j + 1 ≤ b ∧ b < j + 1 + (n : Int)
      · rw [if_pos ⟨rfl, hb1.1, hb1.2⟩, if_pos ⟨rfl, by omega, by omega⟩]
        have hXY : imgY + 1 + (b - (j + 1)).toNat = imgY + (b - j).toNat := by omega
        rw [hXY]
      · rw [if_neg (by rintro ⟨-, h1, h2⟩; exact hb1 ⟨h1, h2⟩)]
        by_cases hbj : b = j
        · rw [if_pos ⟨rfl, hbj⟩, if_pos ⟨rfl, by omega, by omega⟩]
          have hXY : imgY + (b - j).toNat = imgY := by omega
          rw [hXY]
        · rw [if_neg (fun h => hbj h.2), if_neg (by rintro ⟨-, h1, h2⟩; omega)]
    · rw [if_neg (fun h => hai h.1), if_neg (fun h => hai h.1),
        if_neg (fun h => hai h.1)]

/-- Effect of the outer `SetImage` loop: columns `i, i+1, …` for `n`
steps, each copying the rows `[y, endY)`. -/
lemma setImageRow_spec (img : Image) (y endY : Int) (hy0 : 0 ≤ y) :
    ∀ (n : Nat) (i : Int) (imgI : Nat) (o : OLED),
      o.wf → 0 ≤ i → endY ≤ o.h →
      (n = 0 ∨ (n : Int) + i ≤ o.w) →
      (setImageRow img y endY n i imgI o).1 = GoResult.ok () ∧
      ((setImageRow img y endY n i imgI o).2).w = o.w ∧
      ((setImageRow img y endY n i imgI o).2).h = o.h ∧
      ((setImageRow img y endY n i imgI o).2).wf ∧
      ∀ a b : Int, 0 ≤ a → a < o.w → 0 ≤ b → b < o.h →
        bitAt ((setImageRow img y endY n i imgI o).2) a b =
          if i ≤ a ∧ a < i + (n : Int) ∧ y ≤ b ∧ b < endY then
            decide (pixVal img (imgI + (a - i).toNat) ((b - y).toNat) = 1)
          else bitAt o a b := by
  intro n
  induction n with
  | zero =>
    intro i imgI o hwf hi0 hEY hn
    refine ⟨rfl, rfl, rfl, hwf, ?_⟩
    intro a b ha0 haw hb0 hbh
    rw [if_neg (by rintro ⟨h1, h2, -, -⟩; simp at h2; omega)]
    rfl
  | succ n ih =>
    intro i imgI o hwf hi0 hEY hn
    have hcast : ((Nat.succ n : Nat) : Int) = (n : Int) + 1 := by push_cast; ring
    have hnw : (n : Int) + 1 + i ≤ o.w := by
      rcases hn with h | h
      · omega
      · rw [hcast] at h
        linarith
    have hiw : i < o.w := by
      have hn0 : (0:Int) ≤ (n : Int) := Int.natCast_nonneg n
      linarith
    have hcolh : (endY - y).toNat = 0 ∨
        (0 ≤ y ∧ (((endY - y).toNat : Nat) : Int) + y ≤ o.h) := by
      rcases le_or_lt endY y with h | h
      · left
        omega
      · right
        exact ⟨hy0, by omega⟩
    obtain ⟨cok, cwq, chq, cwf, cview⟩ :=
      setImageCol_spec img imgI i ((endY - y).toNat) y 0 o hwf hi0 hiw hcolh
    rcases hSC : setImageCol img imgI i ((endY - y).toNat) y 0 o with ⟨r, o2⟩
    rw [hSC] at cok cwq chq cwf cview
    dsimp only at cok cwq chq cwf cview
    subst cok
    have hred : setImageRow img y endY (Nat.succ n) i imgI o =
        setImageRow img y endY n (i + 1) (imgI + 1) o2 := by
      show (match setImageCol img imgI i ((endY - y).toNat) y 0 o with
            | (GoResult.ok _, o3) => setImageRow img y endY n (i + 1) (imgI + 1) o3
            | (r, o3) => (r, o3)) =
          setImageRow img y endY n (i + 1) (imgI + 1) o2
      rw [hSC]
    have hEY2 : endY ≤ o2.h := by
      rw [chq]
      exact hEY
    have hnih : n = 0 ∨ (n : Int) + (i + 1) ≤ o2.w := by
      right
      rw [cwq]
      linarith
    obtain ⟨rok, rwq, rhq, rwf, rview⟩ :=
      ih (i + 1) (imgI + 1) o2 cwf (by omega) hEY2 hnih
    rw [hred]
    refine ⟨rok, by rw [rwq, cwq], by rw [rhq, chq], rwf, ?_⟩
    intro a b ha0 haw hb0 hbh
    have haw2 : a < o2.w := by
      rw [cwq]
      exact haw
    have hbh2 : b < o2.h := by
      rw [chq]
      exact hbh
    rw [rview a b ha0 haw2 hb0 hbh2, cview a b ha0 haw hb0 hbh, hcast]
    by_cases hyb : y ≤ b ∧ b < endY
    · by_cases ha1 : i + 1 ≤ a ∧ a < i + 1 + (n : Int)
      · rw [if_pos ⟨ha1.1, ha1.2, hyb.1, hyb.2⟩,
          if_pos ⟨by omega, by omega, hyb.1, hyb.2⟩]
        have e1 : imgI + 1 + (a - (i + 1)).toNat = imgI + (a - i).toNat := by omega
        rw [e1]
      · rw [if_neg (by rintro ⟨u1, u2, -, -⟩; exact ha1 ⟨u1, u2⟩)]
        by_cases hai : a = i
        · rw [if_pos ⟨hai, hyb.1, by omega⟩,
            if_pos ⟨by omega, by omega, hyb.1, hyb.2⟩]
          have e1 : imgI + (a - i).toNat = imgI := by omega
          have e2 : (0:Nat) + (b - y).toNat = (b - y).toNat := by omega
          rw [e1, e2]
        · rw [if_neg (fun h => hai h.1), if_neg (by rintro ⟨u1, u2, -, -⟩; omega)]
    · rw [if_neg (by rintro ⟨-, -, u1, u2⟩; exact hyb ⟨u1, u2⟩),
        if_neg (by rintro ⟨-, u1, u2⟩; omega),
        if_neg (by rintro ⟨-, -, u1, u2⟩; exact hyb ⟨u1, u2⟩)]

/-- A row loop whose inner fuel is zero leaves the display untouched. -/
lemma setImageRow_id (img : Image) (y endY : Int) (h0 : (endY - y).toNat = 0) :
    ∀ (n : Nat) (i : Int) (imgI : Nat) (o : OLED),
      setImageRow img y endY n i imgI o = (GoResult.ok (), o) := by
  intro n
  induction n with
  | zero =>
    intro i imgI o
    rfl
  | succ n ih =>
    intro i imgI o
    show (match setImageCol img imgI i ((endY - y).toNat) y 0 o with
          | (GoResult.ok _, o3) => setImageRow img y endY n (i + 1) (imgI + 1) o3
          | (r, o3) => (r, o3)) = (GoResult.ok (), o)
    rw [h0]
    exact ih (i + 1) (imgI + 1) o

/-! ### C8: SetImage clips silently -/

/-- C8: for every `SetImage(x, y, source)` with `x, y ≥ 0` on a
well-formed display, the call succeeds (also when `x ≥ width` or
`y ≥ height`, where it is a no-op returning the display unchanged);
exactly the in-bounds intersection of the destination rectangle is
written, each written pixel being on iff the source pixel's r+g+b sum is
positive, and every other pixel is unchanged. -/
theorem setImage_clip_spec (o : OLED) (x y : Int) (img : Image)
    (hwf : o.wf) (hx : 0 ≤ x) (hy : 0 ≤ y) :
    (SetImage o x y img).1 = GoResult.ok () ∧
    ((SetImage o x y img).2).w = o.w ∧ ((SetImage o x y img).2).h = o.h ∧
    (∀ ix iy : Nat, pixVal img ix iy = 1 ↔
      0 < (img.rgb ix iy).1 + (img.rgb ix iy).2.1 + (img.rgb ix iy).2.2) ∧
    (∀ a b : Int, 0 ≤ a → a < o.w → 0 ≤ b → b < o.h →
      bitAt ((SetImage o x y img).2) a b =
        if x ≤ a ∧ a < x + (img.dx : Int) ∧ y ≤ b ∧ b < y + (img.dy : Int) then
          decide (pixVal img ((a - x).toNat) ((b - y).toNat) = 1)
        else bitAt o a b) ∧
    ((o.w ≤ x ∨ o.h ≤ y) → (SetImage o x y img).2 = o) := by
  unfold SetImage
  dsimp only
  set E1 : Int := if o.w ≤ x + (img.dx : Int) then o.w else x + (img.dx : Int)
    with hE1def
  set E2 : Int := if o.h ≤ y + (img.dy : Int) then o.h else y + (img.dy : Int)
    with hE2def
  have hE1 : (o.w ≤ x + (img.dx : Int) ∧ E1 = o.w) ∨
      (x + (img.dx : Int) < o.w ∧ E1 = x + (img.dx : Int)) := by
    rw [hE1def]
    by_cases h : o.w ≤ x + (img.dx : Int)
    · left
      exact ⟨h, if_pos h⟩
    · right
      exact ⟨by omega, if_neg h⟩
  have hE2 : (o.h ≤ y + (img.dy : Int) ∧ E2 = o.h) ∨
      (y + (img.dy : Int) < o.h ∧ E2 = y + (img.dy : Int)) := by
    rw [hE2def]
    by_cases h : o.h ≤ y + (img.dy : Int)
    · left
      exact ⟨h, if_pos h⟩
    · right
      exact ⟨by omega, if_neg h⟩
  have hEY : E2 ≤ o.h := by omega
  have hE1w : E1 ≤ o.w := by omega
  have hn : ((E1 - x).toNat = 0) ∨ (((E1 - x).toNat : Nat) : Int) + x ≤ o.w := by
    rcases le_or_lt E1 x with h | h
    · left
      omega
    · right
      omega
  obtain ⟨rok, rwq, rhq, rwf, rview⟩ :=
    setImageRow_spec img y E2 hy ((E1 - x).toNat) x 0 o hwf hx hEY hn
  refine ⟨rok, rwq, rhq, ?_, ?_, ?_⟩
  · intro ix iy
    unfold pixVal
    dsimp only
    split
    · rename_i h
      simp [h]
    · rename_i h
      simp [h]
  · intro a b ha0 haw hb0 hbh
    rw [rview a b ha0 haw hb0 hbh]
    by_cases hcond : x ≤ a ∧ a < x + (img.dx : Int) ∧ y ≤ b ∧ b < y + (img.dy : Int)
    · rw [if_pos ⟨hcond.1, by omega, hcond.2.2.1, by omega⟩, if_pos hcond]
      have e2 : (0:Nat) + (a - x).toNat = (a - x).toNat := by omega
      rw [e2]
    · rw [if_neg (by rintro ⟨u1, u2, u3, u4⟩; exact hcond ⟨u1, by omega, u3, by omega⟩),
        if_neg hcond]
  · intro hor
    rcases hor with h | h
    · have hn0 : (E1 - x).toNat = 0 := by omega
      rw [hn0]
      rfl
    · have hn0 : (E2 - y).toNat = 0 := by omega
      rw [setImageRow_id img y E2 hn0 ((E1 - x).toNat) x 0 o]

/-- C8 witness: the spec's own scenario, a 10×10 all-white source at
(126, 60) on a fresh 128×64 display. -/
theorem setImage_clip_spec_witness :
    oled0.wf ∧ (0:Int) ≤ 126 ∧ (0:Int) ≤ 60 ∧
    (SetImage oled0 126 60 whiteImg).1 = GoResult.ok () :=
  ⟨oled0_wf, by decide, by decide,
   (setImage_clip_spec oled0 126 60 whiteImg oled0_wf (by decide) (by decide)).1⟩

/-! ### Marker-byte preservation -/

/-- A `SetPixel` call with nonnegative coordinates never touches buffer
index 0, whatever its outcome; geometry is preserved. -/
lemma setPixel_marker (o : OLED) (x y : Int) (v : Nat) (hw : 0 ≤ o.w)
    (hx : 0 ≤ x) (hy : 0 ≤ y) :
    ((SetPixel o x y v).2).buf[0]? = o.buf[0]? ∧
    ((SetPixel o x y v).2).w = o.w ∧ ((SetPixel o x y v).2).h = o.h := by
  unfold SetPixel
  by_cases h1 : o.w ≤ x ∨ o.h ≤ y
  · rw [if_pos h1]
    exact ⟨rfl, rfl, rfl⟩
  · rw [if_neg h1]
    by_cases h2 : 1 < v
    · rw [if_pos h2]
      exact ⟨rfl, rfl, rfl⟩
    · rw [if_neg h2]
      dsimp only
      split
      · refine ⟨?_, rfl, rfl⟩
        dsimp only
        rw [List.getElem?_set]
        have hq0 : 0 ≤ Int.tdiv y 8 := Int.tdiv_nonneg hy (by decide)
        have hprod : 0 ≤ Int.tdiv y 8 * o.w := mul_nonneg hq0 hw
        have hge1 : 1 ≤ 1 + x + Int.tdiv y 8 * o.w := by linarith
        have hne : ¬ (1 + x + Int.tdiv y 8 * o.w).toNat = 0 := by
          generalize hG : 1 + x + Int.tdiv y 8 * o.w = G at hge1
          omega
        rw [if_neg hne]
      · exact ⟨rfl, rfl, rfl⟩

/-- The inner `SetImage` loop preserves the marker byte when its column
and starting row are nonnegative. -/
lemma setImageCol_marker (img : Image) (imgI : Nat) (i : Int) (hi : 0 ≤ i) :
    ∀ (n : Nat) (j : Int) (imgY : Nat) (o : OLED), 0 ≤ o.w → 0 ≤ j →
      ((setImageCol img imgI i n j imgY o).2).buf[0]? = o.buf[0]? ∧
      ((setImageCol img imgI i n j imgY o).2).w = o.w ∧
      ((setImageCol img imgI i n j imgY o).2).h = o.h := by
  intro n
  induction n with
  | zero =>
    intro j imgY o hw hj
    exact ⟨rfl, rfl, rfl⟩
  | succ n ih =>
    intro j imgY o hw hj
    obtain ⟨hm, hwq, hhq⟩ := setPixel_marker o i j (pixVal img imgI imgY) hw hi hj
    rcases hSP : SetPixel o i j (pixVal img imgI imgY) with ⟨r, o2⟩
    rw [hSP] at hm hwq hhq
    dsimp only at hm hwq hhq
    cases r with
    | ok u =>
      have hred : setImageCol img imgI i (Nat.succ n) j imgY o =
          setImageCol img imgI i n (j + 1) (imgY + 1) o2 := by
        show (match SetPixel o i j (pixVal img imgI imgY) with
              | (GoResult.ok _, o3) => setImageCol img imgI i n (j + 1) (imgY + 1) o3
              | (r, o3) => (r, o3)) =
            setImageCol img imgI i n (j + 1) (imgY + 1) o2
        rw [hSP]
      rw [hred]
      obtain ⟨hm2, hw2, hh2⟩ :=
        ih (j + 1) (imgY + 1) o2 (by rw [hwq]; exact hw) (by omega)
      exact ⟨by rw [hm2, hm], by rw [hw2, hwq], by rw [hh2, hhq]⟩
    | error e =>
      have hred : setImageCol img imgI i (Nat.succ n) j imgY o = (GoResult.error e, o2) := by
        show (match SetPixel o i j (pixVal img imgI imgY) with
              | (GoResult.ok _, o3) => setImageCol img imgI i n (j + 1) (imgY + 1) o3
              | (r, o3) => (r, o3)) = (GoResult.error e, o2)
        rw [hSP]
      rw [hred]
      exact ⟨hm, hwq, hhq⟩
    | panic e =>
      have hred : setImageCol img imgI i (Nat.succ n) j imgY o = (GoResult.panic e, o2) := by
        show (match SetPixel o i j (pixVal img imgI imgY) with
              | (GoResult.ok _, o3) => setImageCol img imgI i n (j + 1) (imgY + 1) o3
              | (r, o3) => (r, o3)) = (GoResult.panic e, o2)
        rw [hSP]
      rw [hred]
      exact ⟨hm, hwq, hhq⟩

/-- The outer `SetImage` loop preserves the marker byte when its
starting column and row are nonnegative. -/
lemma setImageRow_marker (img : Image) (y endY : Int) (hy : 0 ≤ y) :
    ∀ (n : Nat) (i : Int) (imgI : Nat) (o : OLED), 0 ≤ o.w → 0 ≤ i →
      ((setImageRow img y endY n i imgI o).2).buf[0]? = o.buf[0]? ∧
      ((setImageRow img y endY n i imgI o).2).w = o.w ∧
      ((setImageRow img y endY n i imgI o).2).h = o.h := by
  intro n
  induction n with
  | zero =>
    intro i imgI o hw hi
    exact ⟨rfl, rfl, rfl⟩
  | succ n ih =>
    intro i imgI o hw hi
    obtain ⟨hm, hwq, hhq⟩ :=
      setImageCol_marker img imgI i hi ((endY - y).toNat) y 0 o hw hy
    rcases hSC : setImageCol img imgI i ((endY - y).toNat) y 0 o with ⟨r, o2⟩
    rw [hSC] at hm hwq hhq
    dsimp only at hm hwq hhq
    cases r with
    | ok u =>
      have hred : setImageRow img y endY (Nat.succ n) i imgI o =
          setImageRow img y endY n (i + 1) (imgI + 1) o2 := by
        show (match setImageCol img imgI i ((endY - y).toNat) y 0 o with
              | (GoResult.ok _, o3) => setImageRow img y endY n (i + 1) (imgI + 1) o3
              | (r, o3) => (r, o3)) =
            setImageRow img y endY n (i + 1) (imgI + 1) o2
        rw [hSC]
      rw [hred]
      obtain ⟨hm2, hw2, hh2⟩ :=
        ih (i + 1) (imgI + 1) o2 (by rw [hwq]; exact hw) (by omega)
      exact ⟨by rw [hm2, hm], by rw [hw2, hwq], by rw [hh2, hhq]⟩
    | error e =>
      have hred : setImageRow img y endY (Nat.succ n) i imgI o = (GoResult.error e, o2) := by
        show (match setImageCol img imgI i ((endY - y).toNat) y 0 o with
              | (GoResult.ok _, o3) => setImageRow img y endY n (i + 1) (imgI + 1) o3
              | (r, o3) => (r, o3)) = (GoResult.error e, o2)
        rw [hSC]
      rw [hred]
      exact ⟨hm, hwq, hhq⟩
    | panic e =>
      have hred : setImageRow img y endY (Nat.succ n) i imgI o = (GoResult.panic e, o2) := by
        show (match setImageCol img imgI i ((endY - y).toNat) y 0 o with
              | (GoResult.ok _, o3) => setImageRow img y endY n (i + 1) (imgI + 1) o3
              | (r, o3) => (r, o3)) = (GoResult.panic e, o2)
        rw [hSC]
      rw [hred]
      exact ⟨hm, hwq, hhq⟩

/-- `SetImage` with nonnegative coordinates preserves the marker byte. -/
lemma setImage_marker (o : OLED) (x y : Int) (img : Image)
    (hw : 0 ≤ o.w) (hx : 0 ≤ x) (hy : 0 ≤ y) :
    ((SetImage o x y img).2).buf[0]? = o.buf[0]? ∧
    ((SetImage o x y img).2).w = o.w := by
  unfold SetImage
  dsimp only
  have h := setImageRow_marker img y
    (if o.h ≤ y + (img.dy : Int) then o.h else y + (img.dy : Int)) hy
    (((if o.w ≤ x + (img.dx : Int) then o.w else x + (img.dx : Int)) - x).toNat)
    x 0 o hw hx
  exact ⟨h.1, h.2.1⟩

/-- One driver call with nonnegative coordinates preserves the marker
byte and the width. -/
lemma execOp_marker (wok : Nat → Bool) (s : OLED × DevState) (op : Op)
    (hw : 0 ≤ s.1.w) (hop : op.nonneg) :
    ((execOp wok s op).1).buf[0]? = s.1.buf[0]? ∧ ((execOp wok s op).1).w = s.1.w := by
  cases op with
  | setPixelOp x y v =>
    obtain ⟨hx, hy⟩ := hop
    have h := setPixel_marker s.1 x y v hw hx hy
    exact ⟨h.1, h.2.1⟩
  | setImageOp x y img =>
    obtain ⟨hx, hy⟩ := hop
    exact setImage_marker s.1 x y img hw hx hy
  | clearOp =>
    show (((Clear s.1 wok s.2).2.1).buf[0]? = s.1.buf[0]?) ∧
      ((Clear s.1 wok s.2).2.1).w = s.1.w
    unfold Clear
    rw [draw_receiver_eq]
    refine ⟨?_, rfl⟩
    dsimp only
    cases hbuf : s.1.buf with
    | nil => simp
    | cons b0 rest => simp
  | drawOp =>
    show (((Draw s.1 wok s.2).2.1).buf[0]? = s.1.buf[0]?) ∧
      ((Draw s.1 wok s.2).2.1).w = s.1.w
    rw [draw_receiver_eq]
    exact ⟨rfl, rfl⟩
  | onOp => exact ⟨rfl, rfl⟩
  | offOp => exact ⟨rfl, rfl⟩

/-! ### C5: the protocol marker byte -/

set_option maxRecDepth 8192 in
/-- C5 counterexample: `SetPixel(-1, 0, 1)` (a negative-coordinate call)
modifies the marker byte at index 0, so the marker is not invariant for
arbitrary arguments. -/
theorem setPixel_negative_clobbers_marker :
    ((execOps (fun _ => true) (oled0, { trace := [] }) [Op.setPixelOp (-1) 0 1]).1).buf[0]? =
      some 0x41 ∧
    oled0.buf[0]? = some 0x40 :=
  ⟨rfl, rfl⟩

/-- C5 amended: the marker byte at buffer index 0 is preserved by every
sequence of `SetPixel`, `SetImage`, `Clear`, `Draw`, `On`, `Off` calls
whose coordinate arguments are nonnegative (negative coordinates can
reach byte 0); the value argument of `SetPixel` and the image and write
schedule are unrestricted. -/
theorem marker_preserved_nonneg_ops (o : OLED) (st : DevState) (wok : Nat → Bool)
    (ops : List Op) (hw : 0 ≤ o.w) (hops : ∀ op ∈ ops, op.nonneg) :
    ((execOps wok (o, st) ops).1).buf[0]? = o.buf[0]? := by
  induction ops generalizing o st with
  | nil => rfl
  | cons op ops ih =>
    have hop : op.nonneg := hops op (List.mem_cons_self op ops)
    obtain ⟨hm, hwq⟩ := execOp_marker wok (o, st) op hw hop
    show ((execOps wok (execOp wok (o, st) op) ops).1).buf[0]? = o.buf[0]?
    rcases hE : execOp wok (o, st) op with ⟨o2, st2⟩
    rw [hE] at hm hwq
    dsimp only at hm hwq
    rw [← hm]
    exact ih o2 st2 (by rw [hwq]; exact hw)
      (fun p hp => hops p (List.mem_cons_of_mem op hp))

/-- C5 witness. -/
theorem marker_preserved_nonneg_ops_witness :
    (0:Int) ≤ oled0.w ∧
    ((execOps (fun _ => true) (oled0, { trace := [] })
      [Op.setPixelOp 3 5 1, Op.clearOp, Op.drawOp, Op.setImageOp 1 2 whiteImg,
       Op.onOp, Op.offOp]).1).buf[0]? = oled0.buf[0]? :=
  ⟨by decide,
   marker_preserved_nonneg_ops oled0 { trace := [] } (fun _ => true)
     [Op.setPixelOp 3 5 1, Op.clearOp, Op.drawOp, Op.setImageOp 1 2 whiteImg,
      Op.onOp, Op.offOp] (by decide) (by decide)⟩

/-! ### C7: fresh buffer layout -/

/-- C7: for every geometry the code can construct with a valid height
(width is fixed at 128, height a positive multiple of 8), the fresh
buffer has length exactly `1 + width*(height/8)`, carries the marker
byte 0x40 at index 0 and zero everywhere else (all pixels off), and is
well-formed; at height 64 the length is 1025. -/
theorem fresh_buffer_layout (hgt : Int) (hpos : 0 < hgt) (hmul : Int.emod hgt 8 = 0) :
    (OpenWithI2c hgt).isOk = true ∧
    (((OpenWithI2c hgt).getOr oled0).buf.length : Int) = 1 + 128 * Int.tdiv hgt 8 ∧
    ((OpenWithI2c hgt).getOr oled0).buf.getD 0 0 = 0x40 ∧
    (∀ i : Nat, 0 < i → ((OpenWithI2c hgt).getOr oled0).buf.getD i 0 = 0) ∧
    ((OpenWithI2c hgt).getOr oled0).wf ∧
    ((OpenWithI2c hgt).getOr oled0).w = 128 ∧
    ((OpenWithI2c hgt).getOr oled0).h = hgt := by
  have hq : 0 ≤ Int.tdiv hgt 8 := Int.tdiv_nonneg (le_of_lt hpos) (by decide)
  have hprod : (0:Int) ≤ 128 * Int.tdiv hgt 8 := by linarith
  have hsz : (0:Int) ≤ ssd1306_LCDWIDTH * Int.tdiv hgt 8 + 1 := by
    unfold ssd1306_LCDWIDTH
    linarith
  have hopen : OpenWithI2c hgt = GoResult.ok
      ⟨128, hgt, (List.replicate (128 * Int.tdiv hgt 8 + 1).toNat 0).set 0 0x40⟩ := by
    unfold OpenWithI2c
    dsimp only
    rw [if_pos hsz]
    rfl
  rw [hopen]
  have hN : ((128 * Int.tdiv hgt 8 + 1).toNat : Int) = 1 + 128 * Int.tdiv hgt 8 := by
    generalize hG : 128 * Int.tdiv hgt 8 = G at hprod ⊢
    omega
  have hN1 : 1 ≤ (128 * Int.tdiv hgt 8 + 1).toNat := by
    generalize hG : 128 * Int.tdiv hgt 8 = G at hprod ⊢
    omega
  have hlen : ((List.replicate (128 * Int.tdiv hgt 8 + 1).toNat 0).set 0 0x40).length =
      (128 * Int.tdiv hgt 8 + 1).toNat := by
    rw [List.length_set, List.length_replicate]
  refine ⟨rfl, ?_, ?_, ?_, ?_, rfl, rfl⟩
  · show (((List.replicate (128 * Int.tdiv hgt 8 + 1).toNat 0).set 0 0x40).length : Int) =
      1 + 128 * Int.tdiv hgt 8
    rw [hlen, hN]
  · show ((List.replicate (128 * Int.tdiv hgt 8 + 1).toNat 0).set 0 0x40).getD 0 0 = 0x40
    rw [List.getD_eq_getElem?_getD, List.getElem?_set, if_pos rfl,
      List.length_replicate, if_pos (by omega)]
    rfl
  · intro i hi
    show ((List.replicate (128 * Int.tdiv hgt 8 + 1).toNat 0).set 0 0x40).getD i 0 = 0
    rw [List.getD_eq_getElem?_getD, List.getElem?_set, if_neg (by omega),
      List.getElem?_replicate]
    split
    · rfl
    · rfl
  · refine ⟨(by decide : (0:Int) < 128), hpos, hmul, ?_, ?_⟩
    · show (((List.replicate (128 * Int.tdiv hgt 8 + 1).toNat 0).set 0 0x40).length : Int) =
        1 + 128 * Int.tdiv hgt 8
      rw [hlen, hN]
    · intro b hb
      rcases List.mem_or_eq_of_mem_set hb with h | h
      · have := List.eq_of_mem_replicate h
        omega
      · omega

/-- C7 witness: height 64 gives the 1025-byte buffer of the 128×64
display. -/
theorem fresh_buffer_layout_witness :
    (0:Int) < 64 ∧ Int.emod 64 8 = 0 ∧
    (OpenWithI2c 64).isOk = true ∧
    (((OpenWithI2c 64).getOr oled0).buf.length : Int) = 1 + 128 * Int.tdiv 64 8 ∧
    (1 + 128 * Int.tdiv (64:Int) 8 : Int) = 1025 :=
  ⟨by decide, by decide, (fresh_buffer_layout 64 (by decide) (by decide)).1,
   (fresh_buffer_layout 64 (by decide) (by decide)).2.1, by decide⟩

end Monochromeoled
